import Mathlib

/-!
# ofxMaps: QuadKey codec, URI-template parameters and the cache-aside tile loader

A shallow embedding of `ofx::Maps::TileTemplate` (declared in
`includes/ofx/Maps/TileTemplate.h`) and of `ofx::Maps::MapTileSet`
(`src/MapTileSet.cpp`), with the properties of the specification stated and
proved over it.

The bodies of the three static `TileTemplate` functions are not part of the
available sources (only the header is); they are modelled from the
specification text and marked as such.  `MapTileSet` is embedded from its
source, with its collaborators (provider, buffer store, HTTP client, image
codec) as explicit parameters and its effects as an explicit event trace.
-/

namespace ofx
namespace Maps

/-! ## TileTemplate: QuadKey codec -/

namespace TileTemplate

/-- The bit `(v >> n) & 1` of a C++ `int`, as an integer `0` or `1`.
The shift is the arithmetic one, so the expression is meaningful for negative
`v` as well. -/
def bitAt (v : Int) (n : Nat) : Int :=
  Int.land (v >>> n) 1

/-- The quad digit of level `i + 1`:
`((x >> i) & 1) + 2 * ((y >> i) & 1)`. -/
def quadDigit (tileX tileY : Int) (i : Nat) : Int :=
  bitAt tileX i + 2 * bitAt tileY i

/-- The character appended for a digit value: `'0' + digit`. -/
def digitChar (d : Int) : Char :=
  Char.ofNat (48 + d.toNat)

/-- Modelled from the spec: the loop of `tileCoordinateToQuadKey` (its body
is in TileTemplate.cpp, which is not among the sources).  The argument is the
loop counter `i`, running from `levelOfDetail` down to `1`; level `i` appends
the digit built from bit `i - 1` of the two coordinates. -/
def quadKeyLoop (tileX tileY : Int) : Nat → List Char
  | 0 => []
  | i + 1 => digitChar (quadDigit tileX tileY i) :: quadKeyLoop tileX tileY i

/-- Modelled from the spec: `TileTemplate::tileCoordinateToQuadKey`, whose
body (TileTemplate.cpp) is not among the sources.  "For level `i` from
`levelOfDetail` down to `1`, compute digit =
`((x >> (i-1)) & 1) + 2*((y >> (i-1)) & 1)`, append digit character"; for a
level of detail of zero or less the loop body never runs. -/
def tileCoordinateToQuadKey (tileX tileY levelOfDetail : Int) : String :=
  String.mk (quadKeyLoop tileX tileY levelOfDetail.toNat)

/-- The reference definition of the QuadKey: the string of `levelOfDetail`
characters whose `k`-th character is the decimal digit
`((x >> (levelOfDetail-1-k)) & 1) + 2*((y >> (levelOfDetail-1-k)) & 1)`. -/
def quadKeyReference (tileX tileY levelOfDetail : Int) : String :=
  String.mk ((List.range levelOfDetail.toNat).map (fun k =>
    digitChar (Int.land (tileX >>> (levelOfDetail.toNat - 1 - k)) 1
      + 2 * Int.land (tileY >>> (levelOfDetail.toNat - 1 - k)) 1)))

/-- A character of the QuadKey alphabet `'0'`..`'3'`. -/
def isQuadDigit (c : Char) : Bool :=
  c == '0' || c == '1' || c == '2' || c == '3'

/-- The value `c - '0'` of a QuadKey character. -/
def digitValue (c : Char) : Nat :=
  c.toNat - 48

/-- Modelled from the spec: the loop of `quadKeyToTileCoordinate` (its body
is in TileTemplate.cpp, which is not among the sources).  "For each character
from most-significant (index 0) to least-significant, shift (x,y) left by 1
and set the low bit of x/y according to the digit (digit & 1 → x bit;
digit & 2 → y bit)"; a character outside `'0'`..`'3'` ends the loop with the
invalid result.  The accumulators start at zero and only ever receive bits,
so they are kept as naturals; the width of `int` is not modelled. -/
def decodeLoop : List Char → Nat → Nat → Option (Nat × Nat)
  | [], x, y => some (x, y)
  | c :: cs, x, y =>
    if isQuadDigit c then
      decodeLoop cs ((x <<< 1) ||| (digitValue c &&& 1))
        ((y <<< 1) ||| ((digitValue c &&& 2) >>> 1))
    else none

/-- Modelled from the spec: `TileTemplate::quadKeyToTileCoordinate`, whose
body (TileTemplate.cpp) is not among the sources.  The three output
parameters and the boolean are one optional triple `(tileX, tileY,
levelOfDetail)`: `none` is the `false` (invalid key) return.
"levelOfDetail = length of quadKey". -/
def quadKeyToTileCoordinate (quadKey : String) : Option (Int × Int × Int) :=
  match decodeLoop quadKey.data 0 0 with
  | some (x, y) => some ((x : Int), (y : Int), (quadKey.length : Int))
  | none => none


/-! ## TileTemplate: URI-template parameters -/

/-- Modelled from the spec: the scan behind `extractTemplateParameters`
(TileTemplate.cpp and the value of `TEMPLATE_PARAM_REGEX` are not among the
sources).  The template is read left to right.  The first argument is `none`
outside a placeholder and `some acc` after an opening brace, `acc` holding the
characters of NAME read so far, last one first.  A closing brace ends the
placeholder and emits NAME; an opening brace starts a placeholder afresh, so a
NAME never contains a brace; an opening brace that is never closed emits
nothing. -/
def scanTemplate : Option (List Char) → List Char → List String
  | _, [] => []
  | none, c :: rest =>
    if c = '{' then scanTemplate (some []) rest else scanTemplate none rest
  | some acc, c :: rest =>
    if c = '}' then String.mk acc.reverse :: scanTemplate none rest
    else if c = '{' then scanTemplate (some []) rest
    else scanTemplate (some (c :: acc)) rest

/-- Modelled from the spec: `TileTemplate::extractTemplateParameters`, whose
body (TileTemplate.cpp) is not among the sources.  "Scans the template for
single-brace placeholders of the form `{NAME}` and returns the NAME substrings
in order of appearance, duplicates preserved." -/
def extractTemplateParameters (URITemplate : String) : List String :=
  scanTemplate none URITemplate.data

/-- One piece of a URI template: literal text, or a placeholder `{NAME}`. -/
inductive Segment where
  | text (s : String)
  | param (name : String)
  deriving DecidableEq

/-- The characters a segment contributes to the template. -/
def Segment.render : Segment → List Char
  | .text s => s.data
  | .param name => '{' :: (name.data ++ ['}'])

/-- The text of a segment without its braces. -/
def Segment.content : Segment → String
  | .text s => s
  | .param name => name

/-- The characters of the template made of the given segments, in order. -/
def renderSegments : List Segment → List Char
  | [] => []
  | seg :: segs => seg.render ++ renderSegments segs

/-- The template made of the given segments, in order. -/
def renderTemplate (segs : List Segment) : String :=
  String.mk (renderSegments segs)

/-- The names of the placeholders among the segments, in order of appearance,
duplicates kept. -/
def paramNames : List Segment → List String
  | [] => []
  | .text _ :: segs => paramNames segs
  | .param name :: segs => name :: paramNames segs

/-- A text without an opening or a closing brace. -/
def braceFree (s : String) : Prop :=
  '{' ∉ s.data ∧ '}' ∉ s.data

instance (s : String) : Decidable (braceFree s) := by
  unfold braceFree
  infer_instance

end TileTemplate

/-! ## Collaborators of MapTileSet

The types below stand for classes that `MapTileSet.cpp` uses and that are
declared outside the available sources (openFrameworks, Poco, ofxHTTP,
ofxCache and headers of this addon).  Only what `MapTileSet.cpp` touches is
kept. -/

/-- Modelled from the spec: `TileKey` (its header is not among the sources),
"identifies a tile request: (providerId, x, y, zoom)". -/
structure TileKey where
  providerId : String
  x : Int
  y : Int
  zoom : Int
  deriving DecidableEq

/-- The raw bytes of an `ofBuffer`. -/
abbrev ofBuffer := List Nat

/-- The decoded pixels of an `ofPixels`. -/
structure ofPixels where
  data : List Nat
  deriving DecidableEq

/-- A `Tile`, built from decoded pixels by `std::make_shared<Tile>(pixels)`. -/
structure Tile where
  pixels : ofPixels
  deriving DecidableEq

/-- The state of `BaseMapTileProvider` (BaseMapTileProvider.cpp); the
projection is left out. -/
structure BaseMapTileProvider where
  _minZoom : Int
  _maxZoom : Int
  _tileWidth : Int
  _tileHeight : Int
  deriving DecidableEq

/-- The method `BaseMapTileProvider::getMinZoom`. -/
def BaseMapTileProvider.getMinZoom (self : BaseMapTileProvider) : Int :=
  self._minZoom

/-- The method `BaseMapTileProvider::getMaxZoom`. -/
def BaseMapTileProvider.getMaxZoom (self : BaseMapTileProvider) : Int :=
  self._maxZoom

/-- The method `BaseMapTileProvider::getTileWidth`. -/
def BaseMapTileProvider.getTileWidth (self : BaseMapTileProvider) : Int :=
  self._tileWidth

/-- The method `BaseMapTileProvider::getTileHeight`. -/
def BaseMapTileProvider.getTileHeight (self : BaseMapTileProvider) : Int :=
  self._tileHeight

/-- What `MapTileSet` uses of a `MapTileProvider` (its header and body are not
among the sources): the base provider, `id()`, `isCacheable()` and
`getTileURI(key)`, the last one a parameter. -/
structure MapTileProvider where
  base : BaseMapTileProvider
  id : String
  isCacheable : Bool
  getTileURI : TileKey → String

/-- The method `getMinZoom()` of a provider, inherited from `BaseMapTileProvider`. -/
def MapTileProvider.getMinZoom (self : MapTileProvider) : Int :=
  self.base.getMinZoom

/-- The method `getMaxZoom()` of a provider, inherited from `BaseMapTileProvider`. -/
def MapTileProvider.getMaxZoom (self : MapTileProvider) : Int :=
  self.base.getMaxZoom

/-- What `_tryLoadFromURI` uses of a parsed `Poco::URI`: `getScheme()` and
`toString()`. -/
structure URI where
  scheme : String
  text : String
  deriving DecidableEq

/-- What `_tryLoadFromURI` uses of an HTTP response: `getStatus()`,
`getReason()`, `getContentType()` and the bytes of `stream()`. -/
structure HTTPResponse where
  status : Nat
  reason : String
  contentType : String
  body : ofBuffer
  deriving DecidableEq

/-- The constant `Poco::Net::HTTPResponse::HTTP_OK`. -/
def HTTP_OK : Nat := 200

/-- A success (2xx) status. -/
def isSuccessStatus (status : Nat) : Bool :=
  200 ≤ status && status < 300

/-- The external functions `MapTileSet.cpp` calls, as parameters:
`Poco::URI(string)`, `client.execute(context, GetRequest(uri))` without a
transport failure, `Poco::Net::MediaType(contentType).matches(type)` and
`ofLoadImage(pixels, buffer)` (`none` is its `false` return). -/
structure World where
  parseURI : String → URI
  execute : String → HTTPResponse
  mediaTypeMatches : String → String → Bool
  ofLoadImage : ofBuffer → Option ofPixels

/-- The interface of `TileBufferCache` (declared outside the available
sources) over a store state `σ`: `get(key)` returns the stored bytes or
`nullptr` (`none`); `add(key, buffer)` changes the store in whatever way the
implementation chooses, and its outcome is not looked at by the caller. -/
structure TileBufferCache (σ : Type) where
  get : σ → TileKey → Option ofBuffer
  add : σ → TileKey → ofBuffer → σ

/-- The effects of `MapTileSet` that the specification talks about, in the
order they happen. -/
inductive Event where
  | cacheGet (key : TileKey)
  | cacheAdd (key : TileKey) (buffer : ofBuffer)
  | tryLoadFromURI (key : TileKey)
  | httpExecute (uri : String)
  | logError (module : String) (message : String)
  deriving DecidableEq

/-- Whether the event is an `add` on the buffer cache. -/
def Event.isCacheAdd : Event → Bool
  | .cacheAdd _ _ => true
  | _ => false

/-- Whether the event is a `get` on the buffer cache. -/
def Event.isCacheGet : Event → Bool
  | .cacheGet _ => true
  | _ => false

/-- Whether the event belongs to the URI fetch: the call of
`_tryLoadFromURI` or the HTTP request inside it. -/
def Event.isFetch : Event → Bool
  | .tryLoadFromURI _ => true
  | .httpExecute _ => true
  | _ => false

/-! ## MapTileSet -/

/-- The members of `MapTileSet` that `load` uses: the provider and the buffer
cache, `none` being `nullptr`. -/
structure MapTileSet (σ : Type) where
  _provider : MapTileProvider
  _bufferCache : Option σ

/-- The constant `MapTileSet::DEFAULT_BUFFER_CACHE_LOCATION`. -/
def MapTileSet.DEFAULT_BUFFER_CACHE_LOCATION : String := "cache"

/-- The constructor `MapTileSet::MapTileSet(cacheSize, provider, bufferCache)`.
`makeMBTilesCache` stands for `std::make_shared<MBTilesCache>(provider,
location)`, whose class is not among the sources.  `cacheSize` and the
`onAdd` listener play no part in `load` and are left out. -/
def MapTileSet.new {σ : Type} (makeMBTilesCache : MapTileProvider → String → σ)
    (provider : MapTileProvider) (bufferCache : Option σ) : MapTileSet σ :=
  if bufferCache.isNone && provider.isCacheable then
    { _provider := provider
      _bufferCache :=
        some (makeMBTilesCache provider MapTileSet.DEFAULT_BUFFER_CACHE_LOCATION) }
  else
    { _provider := provider, _bufferCache := bufferCache }

/-- The method `MapTileSet::_tryLoadFromCache`: the buffer found, and the events. -/
def MapTileSet._tryLoadFromCache {σ : Type} (C : TileBufferCache σ) (self : MapTileSet σ)
    (key : TileKey) : Option ofBuffer × List Event :=
  match self._bufferCache with
  | some cache => (C.get cache key, [Event.cacheGet key])
  | none => (none, [])

/-- The method `MapTileSet::_tryLoadFromURI`: the buffer fetched, and the
events.  The progress listener attached to the request is left out. -/
def MapTileSet._tryLoadFromURI {σ : Type} (W : World) (self : MapTileSet σ)
    (key : TileKey) : Option ofBuffer × List Event :=
  let uri := W.parseURI (self._provider.getTileURI key)
  if uri.scheme = "http" ∨ uri.scheme = "https" then
    let response := W.execute uri.text
    if response.status = HTTP_OK then
      if W.mediaTypeMatches response.contentType "image" then
        (some response.body, [Event.tryLoadFromURI key, Event.httpExecute uri.text])
      else
        (none, [Event.tryLoadFromURI key, Event.httpExecute uri.text,
          Event.logError "TileStore::_tryLoadFromURI"
            ("Unsupported media type: " ++ response.contentType)])
    else
      (none, [Event.tryLoadFromURI key, Event.httpExecute uri.text,
        Event.logError "TileStore::_tryLoadFromURI"
          ("Invalid response: " ++ response.reason ++ ": " ++ uri.text)])
  else
    (none, [Event.tryLoadFromURI key,
      Event.logError "TileStore::_tryLoadFromURI" ("Unsupported URI scheme: " ++ uri.text)])

/-- The outcome of one `load`: the tile returned (`none` is `nullptr`), the
object afterwards, and the events of the call. -/
structure LoadResult (σ : Type) where
  tile : Option Tile
  state : MapTileSet σ
  events : List Event

/-- The method `MapTileSet::load`: the cache lookup, the fetch on a miss, the
decoding, and the write to the buffer cache. -/
def MapTileSet.load {σ : Type} (C : TileBufferCache σ) (W : World) (self : MapTileSet σ)
    (key : TileKey) : LoadResult σ :=
  let fromCache := self._tryLoadFromCache C key
  let isCached := fromCache.1.isSome
  let fetched : Option ofBuffer × List Event :=
    if !isCached then self._tryLoadFromURI W key else (fromCache.1, [])
  match fetched.1 with
  | some buffer =>
    match W.ofLoadImage buffer with
    | none =>
      { tile := none
        state := self
        events := fromCache.2 ++ fetched.2 ++
          [Event.logError "TileStore::load" "Failure to load pixels."] }
    | some pixels =>
      if !isCached && self._bufferCache.isSome && self._provider.isCacheable then
        { tile := some { pixels := pixels }
          state := { self with _bufferCache := self._bufferCache.map (fun c => C.add c key buffer) }
          events := fromCache.2 ++ fetched.2 ++ [Event.cacheAdd key buffer] }
      else
        { tile := some { pixels := pixels }
          state := self
          events := fromCache.2 ++ fetched.2 }
  | none =>
    { tile := none, state := self, events := fromCache.2 ++ fetched.2 }

/-- A sequence of `load` calls, each with the answers the outside world gives
at that moment: the object after the last one and all events in order. -/
def MapTileSet.loadAll {σ : Type} (C : TileBufferCache σ) (self : MapTileSet σ) :
    List (World × TileKey) → MapTileSet σ × List Event
  | [] => (self, [])
  | (W, key) :: rest =>
    let r := self.load C W key
    let after := MapTileSet.loadAll C r.state rest
    (after.1, r.events ++ after.2)

/-! ## Concrete collaborators

A small buffer store, provider and outside world on which the definitions can
be evaluated. -/

/-- A buffer store kept as an association list, newest entry first. -/
def listStore : TileBufferCache (List (TileKey × ofBuffer)) where
  get := fun s key => (s.find? (fun e => e.1 == key)).map (fun e => e.2)
  add := fun s key buffer => (key, buffer) :: s

/-- A provider with zoom range 0..5 whose tile URI is
`scheme://tiles/zoom/x/y.png`. -/
def sampleProvider (scheme : String) (cacheable : Bool) : MapTileProvider where
  base := { _minZoom := 0, _maxZoom := 5, _tileWidth := 256, _tileHeight := 256 }
  id := "sample"
  isCacheable := cacheable
  getTileURI := fun key =>
    scheme ++ "://tiles/" ++ toString key.zoom ++ "/" ++ toString key.x ++ "/" ++
      toString key.y ++ ".png"

/-- An outside world whose server answers every request with the given status
and content type and the body `[1, 2, 3]`; a URI is split at its first colon;
a media type matches when the content type starts with the type and a slash;
every non-empty buffer decodes to itself. -/
def sampleWorld (status : Nat) (contentType : String) : World where
  parseURI := fun s => { scheme := String.mk (s.data.takeWhile (fun c => c != ':')), text := s }
  execute := fun _ =>
    { status := status, reason := "", contentType := contentType, body := [1, 2, 3] }
  mediaTypeMatches := fun ct type => (type.data ++ ['/']).isPrefixOf ct.data
  ofLoadImage := fun b => if b.isEmpty then none else some { data := b }

/-- The tile set the constructor builds for the sample provider over the
association-list store, the default store being empty. -/
def sampleSet (scheme : String) (cacheable : Bool)
    (bufferCache : Option (List (TileKey × ofBuffer))) : MapTileSet (List (TileKey × ofBuffer)) :=
  MapTileSet.new (fun _ _ => []) (sampleProvider scheme cacheable) bufferCache

/-- The same provider with other zoom bounds. -/
def MapTileProvider.withZoomRange (p : MapTileProvider) (lo hi : Int) : MapTileProvider :=
  { p with base := { p.base with _minZoom := lo, _maxZoom := hi } }

/-- A tile key of the sample provider. -/
def sampleKey (zoom : Int) : TileKey :=
  { providerId := "sample", x := 1, y := 2, zoom := zoom }

namespace TileTemplate

/-! ### Lemmas on the codec -/

theorem land_one_eq_emod (z : Int) : Int.land z 1 = z % 2 := by
  cases z with
  | ofNat m =>
    show ((m &&& 1 : Nat) : Int) = _
    rw [Nat.and_one_is_mod]
    simp
  | negSucc m =>
    show ((Nat.ldiff 1 m : Nat) : Int) = _
    have h : Nat.ldiff 1 m = 1 - m % 2 := by
      apply Nat.eq_of_testBit_eq
      intro i
      rw [Nat.testBit_ldiff]
      rcases Nat.mod_two_eq_zero_or_one m with h0 | h1
      · rw [h0]
        cases i with
        | zero => simp [Nat.testBit_zero, h0]
        | succ j => simp [Nat.testBit_succ]
      · rw [h1]
        cases i with
        | zero => simp [Nat.testBit_zero, h1]
        | succ j => simp [Nat.testBit_succ]
    rw [h, Int.negSucc_eq]
    omega

theorem bitAt_eq_emod (v : Int) (n : Nat) : bitAt v n = (v >>> n) % 2 :=
  land_one_eq_emod _

theorem bitAt_cases (v : Int) (n : Nat) : bitAt v n = 0 ∨ bitAt v n = 1 := by
  rw [bitAt_eq_emod]
  omega

theorem bitAt_natCast (a n : Nat) : bitAt (a : Int) n = ((a / 2 ^ n % 2 : Nat) : Int) := by
  rw [bitAt_eq_emod, Int.shiftRight_eq_div_pow]
  norm_cast

theorem quadDigit_cases (x y : Int) (i : Nat) :
    quadDigit x y i = 0 ∨ quadDigit x y i = 1 ∨ quadDigit x y i = 2 ∨ quadDigit x y i = 3 := by
  unfold quadDigit
  rcases bitAt_cases x i with hx | hx <;> rcases bitAt_cases y i with hy | hy <;>
    rw [hx, hy] <;> simp

theorem digitChar_quadDigit (x y : Int) (i : Nat) :
    digitChar (quadDigit x y i) = '0' ∨ digitChar (quadDigit x y i) = '1' ∨
      digitChar (quadDigit x y i) = '2' ∨ digitChar (quadDigit x y i) = '3' := by
  rcases quadDigit_cases x y i with h | h | h | h <;> rw [h]
  · exact Or.inl (by decide)
  · exact Or.inr (Or.inl (by decide))
  · exact Or.inr (Or.inr (Or.inl (by decide)))
  · exact Or.inr (Or.inr (Or.inr (by decide)))

theorem quadKeyLoop_length (x y : Int) (n : Nat) : (quadKeyLoop x y n).length = n := by
  induction n with
  | zero => rfl
  | succ n ih => simp [quadKeyLoop, ih]

theorem quadKeyLoop_mem (x y : Int) (n : Nat) (c : Char) (h : c ∈ quadKeyLoop x y n) :
    c = '0' ∨ c = '1' ∨ c = '2' ∨ c = '3' := by
  induction n with
  | zero => simp [quadKeyLoop] at h
  | succ n ih =>
    simp only [quadKeyLoop, List.mem_cons] at h
    rcases h with h | h
    · rw [h]; exact digitChar_quadDigit x y n
    · exact ih h

theorem quadKeyLoop_eq_map (x y : Int) (n : Nat) :
    quadKeyLoop x y n =
      (List.range n).map (fun k => digitChar (quadDigit x y (n - 1 - k))) := by
  induction n with
  | zero => rfl
  | succ n ih =>
    rw [List.range_succ_eq_map, List.map_cons, List.map_map, quadKeyLoop, ih]
    congr 1
    apply List.map_congr_left
    intro k _
    simp only [Function.comp]
    congr 2
    omega

theorem isQuadDigit_iff (c : Char) :
    isQuadDigit c = true ↔ (c = '0' ∨ c = '1' ∨ c = '2' ∨ c = '3') := by
  simp [isQuadDigit, or_assoc]

theorem decode_step_x (c : Char) (x : Nat) :
    (x <<< 1) ||| (digitValue c &&& 1) = 2 * x + digitValue c % 2 := by
  have hb : digitValue c &&& 1 < 2 ^ 1 := by
    rw [Nat.and_one_is_mod]; omega
  rw [Nat.shiftLeft_eq, Nat.mul_comm, ← Nat.mul_add_lt_is_or hb, Nat.and_one_is_mod]

theorem decode_step_y (c : Char) (y : Nat) (h : isQuadDigit c = true) :
    (y <<< 1) ||| ((digitValue c &&& 2) >>> 1) = 2 * y + digitValue c / 2 := by
  have hv : (digitValue c &&& 2) >>> 1 = digitValue c / 2 ∧ digitValue c / 2 < 2 ^ 1 := by
    rcases (isQuadDigit_iff c).1 h with h | h | h | h <;> subst h <;> decide
  rw [hv.1, Nat.shiftLeft_eq, Nat.mul_comm, ← Nat.mul_add_lt_is_or hv.2]

theorem digitValue_lt (c : Char) (h : isQuadDigit c = true) : digitValue c < 4 := by
  rcases (isQuadDigit_iff c).1 h with h | h | h | h <;> subst h <;> decide

theorem decodeLoop_cons (c : Char) (cs : List Char) (x y : Nat) (h : isQuadDigit c = true) :
    decodeLoop (c :: cs) x y =
      decodeLoop cs (2 * x + digitValue c % 2) (2 * y + digitValue c / 2) := by
  rw [decodeLoop, if_pos h, decode_step_x c x, decode_step_y c y h]

theorem decodeLoop_cons_invalid (c : Char) (cs : List Char) (x y : Nat)
    (h : isQuadDigit c = false) : decodeLoop (c :: cs) x y = none := by
  rw [decodeLoop, if_neg (by simp [h])]

theorem decodeLoop_eq_none_iff (cs : List Char) (x y : Nat) :
    decodeLoop cs x y = none ↔ ∃ c ∈ cs, isQuadDigit c = false := by
  induction cs generalizing x y with
  | nil => simp [decodeLoop]
  | cons c cs ih =>
    cases h : isQuadDigit c with
    | true =>
      rw [decodeLoop_cons c cs x y h, ih]
      simp [h]
    | false =>
      rw [decodeLoop_cons_invalid c cs x y h]
      simp [h]

theorem digit_facts (p q : Nat) (hp : p < 2) (hq : q < 2) :
    isQuadDigit (digitChar ((p : Int) + 2 * (q : Int))) = true ∧
      digitValue (digitChar ((p : Int) + 2 * (q : Int))) % 2 = p ∧
      digitValue (digitChar ((p : Int) + 2 * (q : Int))) / 2 = q := by
  interval_cases p <;> interval_cases q <;> decide

theorem digitChar_digitValue (c : Char) (h : isQuadDigit c = true) :
    digitChar (((digitValue c % 2 : Nat) : Int) + 2 * ((digitValue c / 2 % 2 : Nat) : Int)) = c := by
  rcases (isQuadDigit_iff c).1 h with h | h | h | h <;> subst h <;> decide

theorem decodeLoop_quadKeyLoop (a b : Nat) (n : Nat) (ax ay : Nat) :
    decodeLoop (quadKeyLoop (a : Int) (b : Int) n) ax ay =
      some (ax * 2 ^ n + a % 2 ^ n, ay * 2 ^ n + b % 2 ^ n) := by
  induction n generalizing ax ay with
  | zero => simp [quadKeyLoop, decodeLoop, Nat.mod_one]
  | succ n ih =>
    have hp : a / 2 ^ n % 2 < 2 := Nat.mod_lt _ (by decide)
    have hq : b / 2 ^ n % 2 < 2 := Nat.mod_lt _ (by decide)
    obtain ⟨h1, h2, h3⟩ := digit_facts _ _ hp hq
    rw [quadKeyLoop, quadDigit, bitAt_natCast, bitAt_natCast, decodeLoop_cons _ _ _ _ h1,
      h2, h3, ih]
    rw [@Nat.mod_pow_succ a 2 n, @Nat.mod_pow_succ b 2 n]
    congr 2 <;> ring

theorem decodeLoop_div (cs : List Char) (x y X Y : Nat)
    (h : decodeLoop cs x y = some (X, Y)) :
    X / 2 ^ cs.length = x ∧ Y / 2 ^ cs.length = y := by
  induction cs generalizing x y with
  | nil =>
    simp only [decodeLoop, Option.some.injEq, Prod.mk.injEq] at h
    simp [h.1, h.2]
  | cons c cs ih =>
    cases hc : isQuadDigit c with
    | false => rw [decodeLoop_cons_invalid c cs x y hc] at h; cases h
    | true =>
      rw [decodeLoop_cons c cs x y hc] at h
      obtain ⟨hx, hy⟩ := ih _ _ h
      have hd := digitValue_lt c hc
      rw [List.length_cons, pow_succ, ← Nat.div_div_eq_div_mul, ← Nat.div_div_eq_div_mul, hx, hy]
      constructor <;> omega

theorem quadKeyLoop_decodeLoop (cs : List Char) (x y X Y : Nat)
    (h : decodeLoop cs x y = some (X, Y)) :
    quadKeyLoop (X : Int) (Y : Int) cs.length = cs := by
  induction cs generalizing x y with
  | nil => rfl
  | cons c cs ih =>
    cases hc : isQuadDigit c with
    | false => rw [decodeLoop_cons_invalid c cs x y hc] at h; cases h
    | true =>
      rw [decodeLoop_cons c cs x y hc] at h
      obtain ⟨hx, hy⟩ := decodeLoop_div cs _ _ X Y h
      have hd := digitValue_lt c hc
      rw [List.length_cons, quadKeyLoop, ih _ _ h, quadDigit, bitAt_natCast, bitAt_natCast,
        hx, hy]
      have e1 : (2 * x + digitValue c % 2) % 2 = digitValue c % 2 := by omega
      have e2 : (2 * y + digitValue c / 2) % 2 = digitValue c / 2 % 2 := by omega
      rw [e1, e2, digitChar_digitValue c hc]

theorem scanTemplate_text (l rest : List Char) (h : '{' ∉ l) :
    scanTemplate none (l ++ rest) = scanTemplate none rest := by
  induction l with
  | nil => rfl
  | cons c l ih =>
    have hc : c ≠ '{' := fun e => h (by simp [e])
    have hl : '{' ∉ l := fun e => h (List.mem_cons_of_mem _ e)
    rw [List.cons_append, scanTemplate, if_neg hc, ih hl]

theorem scanTemplate_no_open (l : List Char) (h : '{' ∉ l) : scanTemplate none l = [] := by
  have := scanTemplate_text l [] h
  rw [List.append_nil] at this
  rw [this, scanTemplate]

theorem scanTemplate_name (acc l rest : List Char) (ho : '{' ∉ l) (hc : '}' ∉ l) :
    scanTemplate (some acc) (l ++ '}' :: rest) =
      String.mk (acc.reverse ++ l) :: scanTemplate none rest := by
  induction l generalizing acc with
  | nil =>
    rw [List.nil_append, scanTemplate, if_pos rfl, List.append_nil]
  | cons c l ih =>
    have h1 : c ≠ '}' := fun e => hc (by simp [e])
    have h2 : c ≠ '{' := fun e => ho (by simp [e])
    have ho2 : '{' ∉ l := fun e => ho (List.mem_cons_of_mem _ e)
    have hc2 : '}' ∉ l := fun e => hc (List.mem_cons_of_mem _ e)
    rw [List.cons_append, scanTemplate, if_neg h1, if_neg h2, ih (c :: acc) ho2 hc2]
    simp

theorem scanTemplate_segments (segs : List Segment)
    (h : ∀ seg ∈ segs, braceFree seg.content) :
    scanTemplate none (renderSegments segs) = paramNames segs := by
  induction segs with
  | nil => rfl
  | cons seg segs ih =>
    have hseg : braceFree seg.content := h seg (List.mem_cons_self _ _)
    have hrest : ∀ s ∈ segs, braceFree s.content :=
      fun s hs => h s (List.mem_cons_of_mem _ hs)
    cases seg with
    | text t =>
      rw [renderSegments, Segment.render, scanTemplate_text t.data _ hseg.1, ih hrest, paramNames]
    | param name =>
      rw [renderSegments, Segment.render, List.cons_append, scanTemplate, if_pos rfl,
        List.append_assoc, List.singleton_append,
        scanTemplate_name [] name.data _ hseg.1 hseg.2, ih hrest, paramNames]
      simp

/-! ## Properties of the QuadKey codec -/

/-- C1: encode then decode gives the tile coordinate back.  For every level
of detail between 1 and 23 and every `x`, `y` with `0 <= x, y <
2^levelOfDetail`, `quadKeyToTileCoordinate` applied to
`tileCoordinateToQuadKey x y levelOfDetail` reports a valid key and yields
exactly `(x, y, levelOfDetail)`. -/
theorem quadKey_encode_decode (x y levelOfDetail : Int)
    (hlo : 1 ≤ levelOfDetail) (hhi : levelOfDetail ≤ 23)
    (hx0 : 0 ≤ x) (hx : x < 2 ^ levelOfDetail.toNat)
    (hy0 : 0 ≤ y) (hy : y < 2 ^ levelOfDetail.toNat) :
    quadKeyToTileCoordinate (tileCoordinateToQuadKey x y levelOfDetail)
      = some (x, y, levelOfDetail) := by
  obtain ⟨a, rfl⟩ := Int.eq_ofNat_of_zero_le hx0
  obtain ⟨b, rfl⟩ := Int.eq_ofNat_of_zero_le hy0
  obtain ⟨n, rfl⟩ := Int.eq_ofNat_of_zero_le (le_trans (by decide) hlo)
  have ha : a < 2 ^ n := by
    have := hx
    rw [Int.toNat_ofNat] at this
    exact_mod_cast this
  have hb : b < 2 ^ n := by
    have := hy
    rw [Int.toNat_ofNat] at this
    exact_mod_cast this
  simp only [quadKeyToTileCoordinate, tileCoordinateToQuadKey, Int.toNat_ofNat,
    decodeLoop_quadKeyLoop, String.length, quadKeyLoop_length, Nat.zero_mul, Nat.zero_add,
    Nat.mod_eq_of_lt ha, Nat.mod_eq_of_lt hb]

/-- Instance of C1 at the tile `(3, 5)` of level 3. -/
theorem quadKey_encode_decode_witness :
    quadKeyToTileCoordinate (tileCoordinateToQuadKey 3 5 3) = some (3, 5, 3) :=
  quadKey_encode_decode 3 5 3 (by decide) (by decide) (by decide) (by decide) (by decide)
    (by decide)

/-- C2: `quadKeyToTileCoordinate` rejects exactly the malformed keys.  For
every string `q` it reports invalid (no coordinate) if and only if `q` has a
character outside `'0'`, `'1'`, `'2'`, `'3'`; when it reports valid, the
level of detail returned is the length of `q`; and `"05A"` is reported
invalid. -/
theorem quadKeyToTileCoordinate_invalid_iff (q : String) :
    (quadKeyToTileCoordinate q = none ↔
        ∃ c ∈ q.data, c ≠ '0' ∧ c ≠ '1' ∧ c ≠ '2' ∧ c ≠ '3') ∧
      (∀ x y lod, quadKeyToTileCoordinate q = some (x, y, lod) → lod = (q.length : Int)) ∧
      quadKeyToTileCoordinate "05A" = none := by
  refine ⟨?_, ?_, by decide⟩
  · have hiff := decodeLoop_eq_none_iff q.data 0 0
    have hbad : ∀ c : Char,
        isQuadDigit c = false ↔ (c ≠ '0' ∧ c ≠ '1' ∧ c ≠ '2' ∧ c ≠ '3') := by
      intro c
      rw [← Bool.not_eq_true, isQuadDigit_iff]
      simp only [not_or]
    unfold quadKeyToTileCoordinate
    cases hd : decodeLoop q.data 0 0 with
    | none =>
      simp only [true_iff]
      obtain ⟨c, hc, hcb⟩ := hiff.1 hd
      exact ⟨c, hc, (hbad c).1 hcb⟩
    | some r =>
      simp only [false_iff, reduceCtorEq]
      rintro ⟨c, hc, hcb⟩
      have := hiff.2 ⟨c, hc, (hbad c).2 hcb⟩
      rw [hd] at this
      cases this
  · intro x y lod h
    unfold quadKeyToTileCoordinate at h
    cases hd : decodeLoop q.data 0 0 with
    | none => rw [hd] at h; cases h
    | some r =>
      rw [hd] at h
      simp only [Option.some.injEq, Prod.mk.injEq] at h
      exact h.2.2.symm

/-- Instance of C2 at the key `"0313"`: it is valid and its level is 4. -/
theorem quadKeyToTileCoordinate_invalid_iff_witness :
    quadKeyToTileCoordinate "0313" = some (7, 5, 4) ∧ (4 : Int) = ("0313".length : Int) :=
  ⟨by decide, (quadKeyToTileCoordinate_invalid_iff "0313").2.1 7 5 4 (by decide)⟩

/-- C3: decode then encode gives the key back.  For every string `q` of
length between 1 and 23 whose characters are all in `'0'`..`'3'`,
`quadKeyToTileCoordinate q` is valid with some result `(x, y, lod)`, and
`tileCoordinateToQuadKey x y lod` is `q` exactly. -/
theorem quadKey_decode_encode (q : String) (_hlo : 1 ≤ q.length) (_hhi : q.length ≤ 23)
    (hq : ∀ c ∈ q.data, c = '0' ∨ c = '1' ∨ c = '2' ∨ c = '3') :
    ∃ x y lod, quadKeyToTileCoordinate q = some (x, y, lod) ∧
      tileCoordinateToQuadKey x y lod = q := by
  cases hd : decodeLoop q.data 0 0 with
  | none =>
    obtain ⟨c, hc, hcb⟩ := (decodeLoop_eq_none_iff q.data 0 0).1 hd
    have := (isQuadDigit_iff c).2 (hq c hc)
    rw [hcb] at this
    cases this
  | some r =>
    obtain ⟨X, Y⟩ := r
    refine ⟨(X : Int), (Y : Int), (q.length : Int), ?_, ?_⟩
    · unfold quadKeyToTileCoordinate
      rw [hd]
    · unfold tileCoordinateToQuadKey
      rw [Int.toNat_ofNat]
      have := quadKeyLoop_decodeLoop q.data 0 0 X Y hd
      show String.mk (quadKeyLoop (X : Int) (Y : Int) q.data.length) = q
      rw [this]

/-- Instance of C3 at the key `"0313"`. -/
theorem quadKey_decode_encode_witness :
    ∃ x y lod, quadKeyToTileCoordinate "0313" = some (x, y, lod) ∧
      tileCoordinateToQuadKey x y lod = "0313" :=
  quadKey_decode_encode "0313" (by decide) (by decide) (by decide)

/-- C4: `tileCoordinateToQuadKey` equals its reference definition.  For every
`x`, `y` and `levelOfDetail` the result is the string whose `k`-th character
(`k = 0 .. levelOfDetail-1`) is the decimal digit
`((x >> (levelOfDetail-1-k)) & 1) + 2*((y >> (levelOfDetail-1-k)) & 1)`; its
length is `levelOfDetail` when that is at least 1, every character is in
`'0'`..`'3'`, for `levelOfDetail <= 0` the result is the empty string, and
`tileCoordinateToQuadKey 3 5 3 = "213"`. -/
theorem tileCoordinateToQuadKey_eq_reference (x y levelOfDetail : Int) :
    tileCoordinateToQuadKey x y levelOfDetail = quadKeyReference x y levelOfDetail ∧
      (1 ≤ levelOfDetail →
        ((tileCoordinateToQuadKey x y levelOfDetail).length : Int) = levelOfDetail) ∧
      (∀ c ∈ (tileCoordinateToQuadKey x y levelOfDetail).data,
        c = '0' ∨ c = '1' ∨ c = '2' ∨ c = '3') ∧
      (levelOfDetail ≤ 0 → tileCoordinateToQuadKey x y levelOfDetail = "") ∧
      tileCoordinateToQuadKey 3 5 3 = "213" := by
  refine ⟨?_, ?_, ?_, ?_, by decide⟩
  · unfold tileCoordinateToQuadKey quadKeyReference
    rw [quadKeyLoop_eq_map]
    rfl
  · intro h
    unfold tileCoordinateToQuadKey
    simp only [String.length, quadKeyLoop_length]
    omega
  · intro c hc
    exact quadKeyLoop_mem x y _ c hc
  · intro h
    unfold tileCoordinateToQuadKey
    rw [Int.toNat_eq_zero.2 h]
    rfl

/-- Instance of C4 at `(3, 5, 3)`: the key has length 3, and at level 0 it
is empty. -/
theorem tileCoordinateToQuadKey_eq_reference_witness :
    ((tileCoordinateToQuadKey 3 5 3).length : Int) = 3 ∧ tileCoordinateToQuadKey 3 5 0 = "" :=
  ⟨(tileCoordinateToQuadKey_eq_reference 3 5 3).2.1 (by decide),
    (tileCoordinateToQuadKey_eq_reference 3 5 0).2.2.2.1 (by decide)⟩

/-! ## Properties of the template scan -/

/-- C8: `extractTemplateParameters` returns the NAME substrings of the
placeholders `{NAME}` of a template in order of appearance, duplicates kept
and braces not included: for a template made of literal texts and
placeholders whose texts and names hold no brace, the result is the list of
the placeholder names in order.  A template without an opening brace yields
the empty sequence, and `"http://example/{zoom}/{x}/{y}.png"` yields
`["zoom", "x", "y"]`. -/
theorem extractTemplateParameters_names :
    (∀ segs : List Segment, (∀ seg ∈ segs, braceFree seg.content) →
        extractTemplateParameters (renderTemplate segs) = paramNames segs) ∧
      (∀ t : String, '{' ∉ t.data → extractTemplateParameters t = []) ∧
      extractTemplateParameters "http://example/{zoom}/{x}/{y}.png" = ["zoom", "x", "y"] := by
  refine ⟨?_, ?_, by decide⟩
  · intro segs h
    exact scanTemplate_segments segs h
  · intro t h
    exact scanTemplate_no_open t.data h

/-- Instance of C8 at a template with a repeated placeholder. -/
theorem extractTemplateParameters_names_witness :
    extractTemplateParameters
        (renderTemplate [.text "http://example/", .param "x", .text "/", .param "y",
          .text "/", .param "x"])
      = ["x", "y", "x"] :=
  extractTemplateParameters_names.1 _ (by decide)

end TileTemplate


/-! ## Lemmas on MapTileSet -/

namespace MapTileSet

variable {σ : Type}

theorem new_provider (mk : MapTileProvider → String → σ) (p : MapTileProvider)
    (bc : Option σ) : (MapTileSet.new mk p bc)._provider = p := by
  unfold MapTileSet.new
  split <;> rfl

theorem new_cacheable (mk : MapTileProvider → String → σ) (p : MapTileProvider)
    (bc : Option σ) (h : p.isCacheable = true) :
    (MapTileSet.new mk p bc)._bufferCache.isSome = true := by
  unfold MapTileSet.new
  cases bc <;> simp [h]

theorem new_not_cacheable (mk : MapTileProvider → String → σ) (p : MapTileProvider)
    (bc : Option σ) (h : p.isCacheable = false) :
    (MapTileSet.new mk p bc)._bufferCache = bc := by
  unfold MapTileSet.new
  simp [h]

theorem tryLoadFromCache_events (C : TileBufferCache σ) (self : MapTileSet σ) (key : TileKey) :
    (self._tryLoadFromCache C key).2 =
      if self._bufferCache.isSome then [Event.cacheGet key] else [] := by
  unfold MapTileSet._tryLoadFromCache
  cases self._bufferCache <;> rfl

theorem tryLoadFromCache_none (C : TileBufferCache σ) (self : MapTileSet σ) (key : TileKey)
    (h : self._bufferCache = none) : self._tryLoadFromCache C key = (none, []) := by
  unfold MapTileSet._tryLoadFromCache
  rw [h]

theorem tryLoadFromCache_some (C : TileBufferCache σ) (self : MapTileSet σ) (key : TileKey)
    (c : σ) (h : self._bufferCache = some c) :
    self._tryLoadFromCache C key = (C.get c key, [Event.cacheGet key]) := by
  unfold MapTileSet._tryLoadFromCache
  rw [h]

theorem tryLoadFromURI_events (W : World) (self : MapTileSet σ) (key : TileKey) :
    Event.tryLoadFromURI key ∈ (self._tryLoadFromURI W key).2 ∧
      ∀ e ∈ (self._tryLoadFromURI W key).2, e.isCacheAdd = false ∧ e.isCacheGet = false := by
  unfold MapTileSet._tryLoadFromURI
  simp only []
  split
  · split
    · split <;> simp [Event.isCacheAdd, Event.isCacheGet]
    · simp [Event.isCacheAdd, Event.isCacheGet]
  · simp [Event.isCacheAdd, Event.isCacheGet]

/-- The result of `load` when the cache lookup finds a buffer. -/
theorem load_hit (C : TileBufferCache σ) (W : World) (self : MapTileSet σ) (key : TileKey)
    (b : ofBuffer) (h : (self._tryLoadFromCache C key).1 = some b) :
    (self.load C W key).state = self ∧
      (self.load C W key).tile = (W.ofLoadImage b).map (fun px => { pixels := px }) ∧
      ∀ e ∈ (self.load C W key).events, e.isCacheAdd = false ∧ e.isFetch = false := by
  have hev := tryLoadFromCache_events C self key
  unfold MapTileSet.load
  simp only [h, Option.isSome_some, Bool.not_true, Bool.false_and, Bool.false_eq_true,
    if_false, List.append_nil]
  cases hd : W.ofLoadImage b with
  | none =>
    simp only [Option.map_none', true_and]
    intro e he
    rw [hev] at he
    split at he <;> simp at he <;> rcases he with rfl | rfl <;> simp [Event.isCacheAdd, Event.isFetch]
  | some px =>
    simp only [Option.map_some', true_and]
    intro e he
    rw [hev] at he
    split at he <;> simp at he
    subst he
    simp [Event.isCacheAdd, Event.isFetch]

/-- The result of `load` when the cache lookup finds nothing. -/
theorem load_miss (C : TileBufferCache σ) (W : World) (self : MapTileSet σ) (key : TileKey)
    (h : (self._tryLoadFromCache C key).1 = none) :
    self.load C W key =
      match (self._tryLoadFromURI W key).1 with
      | some buffer =>
        match W.ofLoadImage buffer with
        | none =>
          { tile := none
            state := self
            events := (self._tryLoadFromCache C key).2 ++ (self._tryLoadFromURI W key).2 ++
              [Event.logError "TileStore::load" "Failure to load pixels."] }
        | some pixels =>
          if self._bufferCache.isSome = true ∧ self._provider.isCacheable = true then
            { tile := some { pixels := pixels }
              state :=
                { self with _bufferCache := self._bufferCache.map (fun c => C.add c key buffer) }
              events := (self._tryLoadFromCache C key).2 ++ (self._tryLoadFromURI W key).2 ++
                [Event.cacheAdd key buffer] }
          else
            { tile := some { pixels := pixels }
              state := self
              events := (self._tryLoadFromCache C key).2 ++ (self._tryLoadFromURI W key).2 }
      | none =>
        { tile := none
          state := self
          events := (self._tryLoadFromCache C key).2 ++ (self._tryLoadFromURI W key).2 } := by
  unfold MapTileSet.load
  simp only [h, Option.isSome_none, Bool.not_false, Bool.true_and, if_true, Bool.and_eq_true]

theorem load_provider (C : TileBufferCache σ) (W : World) (self : MapTileSet σ)
    (key : TileKey) : (self.load C W key).state._provider = self._provider := by
  cases h : (self._tryLoadFromCache C key).1 with
  | some b => rw [(load_hit C W self key b h).1]
  | none =>
    rw [load_miss C W self key h]
    split
    · split
      · rfl
      · split <;> rfl
    · rfl

/-- With a provider that is not cacheable, `load` leaves the object as it
is and adds nothing to the buffer cache. -/
theorem load_not_cacheable (C : TileBufferCache σ) (W : World) (self : MapTileSet σ)
    (key : TileKey) (hp : self._provider.isCacheable = false) :
    (self.load C W key).state = self ∧
      ∀ e ∈ (self.load C W key).events, e.isCacheAdd = false := by
  cases h : (self._tryLoadFromCache C key).1 with
  | some b =>
    obtain ⟨h1, _, h3⟩ := load_hit C W self key b h
    exact ⟨h1, fun e he => (h3 e he).1⟩
  | none =>
    have hc := tryLoadFromCache_events C self key
    have hu := (tryLoadFromURI_events W self key).2
    have hcache : ∀ e ∈ (self._tryLoadFromCache C key).2, e.isCacheAdd = false := by
      intro e he
      rw [hc] at he
      split at he <;> simp at he
      subst he
      rfl
    rw [load_miss C W self key h]
    split
    · split
      · refine ⟨rfl, ?_⟩
        intro e he
        simp only [List.mem_append, List.mem_singleton] at he
        rcases he with (he | he) | he
        · exact hcache e he
        · exact (hu e he).1
        · subst he; rfl
      · rw [if_neg (by simp [hp])]
        refine ⟨rfl, ?_⟩
        intro e he
        simp only [List.mem_append] at he
        rcases he with he | he
        · exact hcache e he
        · exact (hu e he).1
    · refine ⟨rfl, ?_⟩
      intro e he
      simp only [List.mem_append] at he
      rcases he with he | he
      · exact hcache e he
      · exact (hu e he).1

/-- Without a buffer cache, `load` performs no `get`. -/
theorem load_no_cache (C : TileBufferCache σ) (W : World) (self : MapTileSet σ)
    (key : TileKey) (hb : self._bufferCache = none) :
    ∀ e ∈ (self.load C W key).events, e.isCacheGet = false := by
  have hc := tryLoadFromCache_none C self key hb
  have hu := (tryLoadFromURI_events W self key).2
  have h : (self._tryLoadFromCache C key).1 = none := by rw [hc]
  rw [load_miss C W self key h, hc]
  split
  · split
    · intro e he
      simp only [List.nil_append, List.mem_append, List.mem_singleton] at he
      rcases he with he | he
      · exact (hu e he).2
      · subst he; rfl
    · rw [if_neg (by simp [hb])]
      intro e he
      simp only [List.nil_append] at he
      exact (hu e he).2
  · intro e he
    simp only [List.nil_append] at he
    exact (hu e he).2

/-- With a buffer cache, `load` starts with a `get` for the key. -/
theorem load_cache_get (C : TileBufferCache σ) (W : World) (self : MapTileSet σ)
    (key : TileKey) (hb : self._bufferCache.isSome = true) :
    Event.cacheGet key ∈ (self.load C W key).events := by
  have hc := tryLoadFromCache_events C self key
  rw [if_pos hb] at hc
  unfold MapTileSet.load
  simp only [hc]
  split
  · split
    · simp
    · split <;> simp
  · simp

theorem loadAll_not_cacheable (C : TileBufferCache σ) (self : MapTileSet σ)
    (reqs : List (World × TileKey)) (hp : self._provider.isCacheable = false) :
    (self.loadAll C reqs).1 = self ∧ ∀ e ∈ (self.loadAll C reqs).2, e.isCacheAdd = false := by
  induction reqs with
  | nil => exact ⟨rfl, by simp [MapTileSet.loadAll]⟩
  | cons r reqs ih =>
    obtain ⟨W, key⟩ := r
    obtain ⟨h1, h2⟩ := load_not_cacheable C W self key hp
    simp only [MapTileSet.loadAll, h1]
    refine ⟨ih.1, ?_⟩
    intro e he
    simp only [List.mem_append] at he
    rcases he with he | he
    · exact h2 e he
    · exact ih.2 e he

theorem loadAll_no_cache (C : TileBufferCache σ) (self : MapTileSet σ)
    (reqs : List (World × TileKey)) (hp : self._provider.isCacheable = false)
    (hb : self._bufferCache = none) :
    ∀ e ∈ (self.loadAll C reqs).2, e.isCacheGet = false := by
  induction reqs with
  | nil => simp [MapTileSet.loadAll]
  | cons r reqs ih =>
    obtain ⟨W, key⟩ := r
    obtain ⟨h1, _⟩ := load_not_cacheable C W self key hp
    simp only [MapTileSet.loadAll, h1]
    intro e he
    simp only [List.mem_append] at he
    rcases he with he | he
    · exact load_no_cache C W self key hb e he
    · exact ih e he

theorem events_no_add (C : TileBufferCache σ) (W : World) (self : MapTileSet σ)
    (key : TileKey) :
    ∀ e ∈ (self._tryLoadFromCache C key).2 ++ (self._tryLoadFromURI W key).2,
      e.isCacheAdd = false := by
  intro e he
  simp only [List.mem_append] at he
  rcases he with he | he
  · rw [tryLoadFromCache_events] at he
    split at he <;> simp at he
    subst he
    rfl
  · exact ((tryLoadFromURI_events W self key).2 e he).1

/-- The two ways a `load` can end, as far as the buffer cache is concerned:
without an `add` and with the object unchanged, or, after a missed lookup, a
successful fetch and a successful decode with a cache present and a cacheable
provider, with exactly one `add` of the fetched bytes as its last event. -/
theorem load_cases (C : TileBufferCache σ) (W : World) (self : MapTileSet σ) (key : TileKey) :
    ((∀ e ∈ (self.load C W key).events, e.isCacheAdd = false) ∧
        (self.load C W key).state = self ∧
        ¬ ((self._tryLoadFromCache C key).1 = none ∧
            ∃ v, (self._tryLoadFromURI W key).1 = some v ∧ (W.ofLoadImage v).isSome = true ∧
              self._bufferCache.isSome = true ∧ self._provider.isCacheable = true)) ∨
      (∃ v px, (self._tryLoadFromCache C key).1 = none ∧
        (self._tryLoadFromURI W key).1 = some v ∧ W.ofLoadImage v = some px ∧
        self._bufferCache.isSome = true ∧ self._provider.isCacheable = true ∧
        (self.load C W key).events =
          (self._tryLoadFromCache C key).2 ++ (self._tryLoadFromURI W key).2 ++
            [Event.cacheAdd key v] ∧
        (self.load C W key).tile = some { pixels := px } ∧
        (self.load C W key).state =
          { self with _bufferCache := self._bufferCache.map (fun c => C.add c key v) }) := by
  have hna := events_no_add C W self key
  cases h : (self._tryLoadFromCache C key).1 with
  | some b =>
    obtain ⟨h1, _, h3⟩ := load_hit C W self key b h
    exact Or.inl ⟨fun e he => (h3 e he).1, h1, by simp⟩
  | none =>
    rw [load_miss C W self key h]
    cases hf : (self._tryLoadFromURI W key).1 with
    | none =>
      dsimp only
      exact Or.inl ⟨hna, rfl, by simp⟩
    | some v =>
      dsimp only
      cases hd : W.ofLoadImage v with
      | none =>
        dsimp only
        refine Or.inl ⟨?_, rfl, by simp [hd]⟩
        intro e he
        simp only [List.mem_append, List.mem_singleton] at he
        rcases he with he | he
        · exact hna e (List.mem_append.2 he)
        · subst he; rfl
      | some px =>
        dsimp only
        by_cases hc : self._bufferCache.isSome = true ∧ self._provider.isCacheable = true
        · refine Or.inr ⟨v, px, rfl, rfl, hd, hc.1, hc.2, ?_, ?_, ?_⟩ <;>
            simp only [if_pos hc]
        · refine Or.inl ⟨?_, ?_, ?_⟩
          · simp only [if_neg hc]; exact hna
          · simp only [if_neg hc]
          · rintro ⟨_, w, _, _, h1, h2⟩
            exact hc ⟨h1, h2⟩

theorem load_isSome (C : TileBufferCache σ) (W : World) (self : MapTileSet σ)
    (key : TileKey) :
    (self.load C W key).state._bufferCache.isSome = self._bufferCache.isSome := by
  rcases load_cases C W self key with ⟨_, h, _⟩ | ⟨v, px, _, _, _, _, _, _, _, hst⟩
  · rw [h]
  · rw [hst]
    simp

theorem loadAll_provider (C : TileBufferCache σ) (self : MapTileSet σ)
    (reqs : List (World × TileKey)) : (self.loadAll C reqs).1._provider = self._provider := by
  induction reqs generalizing self with
  | nil => rfl
  | cons r reqs ih =>
    obtain ⟨W, key⟩ := r
    simp only [MapTileSet.loadAll]
    rw [ih, load_provider]

theorem loadAll_isSome (C : TileBufferCache σ) (self : MapTileSet σ)
    (reqs : List (World × TileKey)) :
    (self.loadAll C reqs).1._bufferCache.isSome = self._bufferCache.isSome := by
  induction reqs generalizing self with
  | nil => rfl
  | cons r reqs ih =>
    obtain ⟨W, key⟩ := r
    simp only [MapTileSet.loadAll]
    rw [ih, load_isSome]

/-- Every object reached from a constructed one by `load` calls keeps the
provider and, when the provider is cacheable, has a buffer cache. -/
theorem reachable_invariant (mk : MapTileProvider → String → σ) (C : TileBufferCache σ)
    (provider : MapTileProvider) (bufferCache : Option σ) (reqs : List (World × TileKey)) :
    ((MapTileSet.new mk provider bufferCache).loadAll C reqs).1._provider = provider ∧
      (provider.isCacheable = true →
        ((MapTileSet.new mk provider bufferCache).loadAll C reqs).1._bufferCache.isSome
          = true) := by
  refine ⟨by rw [loadAll_provider, new_provider], ?_⟩
  intro h
  rw [loadAll_isSome]
  exact new_cacheable mk provider bufferCache h

/-! ## Properties of MapTileSet -/

/-- C5: cache-aside.  For every tile key, when a `MapTileSet` whose provider
is cacheable (built by the constructor and having served any sequence of
earlier loads) performs a `load` that misses the buffer cache, fetches bytes
successfully and decodes them successfully, then, with a buffer store where a
`get` after an `add` of the same key returns the bytes added, the next `load`
of the same key finds those bytes in the buffer cache, builds its tile from
them, and has no fetch event: neither `_tryLoadFromURI` nor an HTTP request. -/
theorem cache_aside (mk : MapTileProvider → String → σ) (C : TileBufferCache σ)
    (W W2 : World) (provider : MapTileProvider) (bufferCache : Option σ)
    (reqs : List (World × TileKey)) (self : MapTileSet σ) (key : TileKey) (b : ofBuffer)
    (hs : self = ((MapTileSet.new mk provider bufferCache).loadAll C reqs).1)
    (hlaw : ∀ c k v, C.get (C.add c k v) k = some v)
    (hp : provider.isCacheable = true)
    (hmiss : (self._tryLoadFromCache C key).1 = none)
    (hfetch : (self._tryLoadFromURI W key).1 = some b)
    (hdecode : (W.ofLoadImage b).isSome = true) :
    ((self.load C W key).state._tryLoadFromCache C key).1 = some b ∧
      ((self.load C W key).state.load C W2 key).tile
        = (W2.ofLoadImage b).map (fun px => { pixels := px }) ∧
      ∀ e ∈ ((self.load C W key).state.load C W2 key).events, e.isFetch = false := by
  obtain ⟨hprov, hinv⟩ := reachable_invariant mk C provider bufferCache reqs
  rw [← hs] at hprov hinv
  have hsome := hinv hp
  have hget : ((self.load C W key).state._tryLoadFromCache C key).1 = some b := by
    rcases load_cases C W self key with hA | hB
    · exact absurd ⟨hmiss, b, hfetch, hdecode, hsome, by rw [hprov]; exact hp⟩ hA.2.2
    · obtain ⟨v, px, _, hv, _, _, _, _, _, hst⟩ := hB
      rw [hfetch] at hv
      cases hv
      rw [hst]
      obtain ⟨c, hc⟩ := Option.isSome_iff_exists.1 hsome
      rw [tryLoadFromCache_some C _ key (C.add c key b) (by simp [hc])]
      exact hlaw c key b
  obtain ⟨_, h2, h3⟩ := load_hit C W2 _ key b hget
  exact ⟨hget, h2, fun e he => (h3 e he).2⟩

/-- Instance of C5: the sample tile set, cacheable and starting with an empty
store, loads a key twice; the second load, against a server that now fails,
still yields the tile and has no fetch event. -/
theorem cache_aside_witness :
    (((sampleSet "http" true none).load listStore (sampleWorld 200 "image/png")
        (sampleKey 3)).state.load listStore (sampleWorld 500 "text/html") (sampleKey 3)).tile
      = some { pixels := { data := [1, 2, 3] } } ∧
    ∀ e ∈ (((sampleSet "http" true none).load listStore (sampleWorld 200 "image/png")
        (sampleKey 3)).state.load listStore (sampleWorld 500 "text/html") (sampleKey 3)).events,
      e.isFetch = false :=
  (cache_aside (fun _ _ => []) listStore (sampleWorld 200 "image/png")
    (sampleWorld 500 "text/html") (sampleProvider "http" true) none [] (sampleSet "http" true none)
    (sampleKey 3) [1, 2, 3] rfl
    (by intro c k v; simp [listStore]) (by decide) (by decide) (by decide) (by decide)).2

/-- C6, as the code has it: with a provider that is not cacheable, no `load`
of any sequence of requests adds to the buffer store, and the store is left
as it was passed to the constructor; when no buffer cache was passed, no
`load` performs a `get` either; when one was passed, every `load` performs a
`get` on it. -/
theorem not_cacheable_loads (mk : MapTileProvider → String → σ) (C : TileBufferCache σ)
    (provider : MapTileProvider) (bufferCache : Option σ) (reqs : List (World × TileKey))
    (hp : provider.isCacheable = false) :
    (∀ e ∈ ((MapTileSet.new mk provider bufferCache).loadAll C reqs).2, e.isCacheAdd = false) ∧
      ((MapTileSet.new mk provider bufferCache).loadAll C reqs).1._bufferCache = bufferCache ∧
      (bufferCache = none →
        ∀ e ∈ ((MapTileSet.new mk provider bufferCache).loadAll C reqs).2,
          e.isCacheGet = false) ∧
      (bufferCache.isSome = true → ∀ (W : World) (key : TileKey),
        Event.cacheGet key ∈ ((MapTileSet.new mk provider bufferCache).load C W key).events) := by
  have hprov : (MapTileSet.new mk provider bufferCache)._provider.isCacheable = false := by
    rw [new_provider]; exact hp
  have hbc := new_not_cacheable mk provider bufferCache hp
  obtain ⟨h1, h2⟩ := loadAll_not_cacheable C (MapTileSet.new mk provider bufferCache) reqs hprov
  refine ⟨h2, by rw [h1, hbc], ?_, ?_⟩
  · intro hnone
    exact loadAll_no_cache C _ reqs hprov (by rw [hbc, hnone])
  · intro hsome W key
    exact load_cache_get C W _ key (by rw [hbc]; exact hsome)

/-- Instance of C6 as amended: two loads of a key with the sample provider,
not cacheable and without a buffer cache. -/
theorem not_cacheable_loads_witness :
    (∀ e ∈ ((sampleSet "http" false none).loadAll listStore
        [(sampleWorld 200 "image/png", sampleKey 3), (sampleWorld 200 "image/png", sampleKey 3)]).2,
      e.isCacheAdd = false) ∧
    ((sampleSet "http" false none).loadAll listStore
        [(sampleWorld 200 "image/png", sampleKey 3),
          (sampleWorld 200 "image/png", sampleKey 3)]).1._bufferCache = none :=
  ⟨(not_cacheable_loads (fun _ _ => []) listStore (sampleProvider "http" false) none
      [(sampleWorld 200 "image/png", sampleKey 3), (sampleWorld 200 "image/png", sampleKey 3)]
      (by decide)).1,
    (not_cacheable_loads (fun _ _ => []) listStore (sampleProvider "http" false) none
      [(sampleWorld 200 "image/png", sampleKey 3), (sampleWorld 200 "image/png", sampleKey 3)]
      (by decide)).2.1⟩

/-- C6 as stated fails: with a provider that is not cacheable and a buffer
cache passed to the constructor, `load` performs a `get` on that cache. -/
theorem not_cacheable_load_reads_cache :
    (sampleProvider "http" false).isCacheable = false ∧
      Event.cacheGet (sampleKey 3) ∈
        ((sampleSet "http" false (some [])).load listStore (sampleWorld 200 "image/png")
          (sampleKey 3)).events := by
  decide

/-- C7, as the code has it: `load` makes no zoom check.  Whatever the zoom
level of the key, `load` calls `_tryLoadFromURI` exactly when the buffer-cache
lookup finds nothing, and neither the tile returned nor the events depend on
the zoom bounds of the provider. -/
theorem load_fetch_iff_miss (C : TileBufferCache σ) (W : World) (self : MapTileSet σ)
    (key : TileKey) :
    (Event.tryLoadFromURI key ∈ (self.load C W key).events ↔
        (self._tryLoadFromCache C key).1 = none) ∧
      ∀ lo hi : Int,
        (({ self with _provider := self._provider.withZoomRange lo hi } : MapTileSet σ).load
            C W key).tile = (self.load C W key).tile ∧
        (({ self with _provider := self._provider.withZoomRange lo hi } : MapTileSet σ).load
            C W key).events = (self.load C W key).events := by
  constructor
  · cases h : (self._tryLoadFromCache C key).1 with
    | some b =>
      obtain ⟨_, _, h3⟩ := load_hit C W self key b h
      simp only [reduceCtorEq, iff_false]
      intro hmem
      have := (h3 _ hmem).2
      simp [Event.isFetch] at this
    | none =>
      simp only [iff_true]
      have hu := (tryLoadFromURI_events W self key).1
      rw [load_miss C W self key h]
      split
      · split
        · simp [hu]
        · split <;> simp [hu]
      · simp [hu]
  · intro lo hi
    obtain ⟨p, bc⟩ := self
    simp only [MapTileSet.load, MapTileSet._tryLoadFromCache, MapTileSet._tryLoadFromURI,
      MapTileProvider.withZoomRange]
    split
    · split
      · exact ⟨rfl, rfl⟩
      · split <;> exact ⟨rfl, rfl⟩
    · exact ⟨rfl, rfl⟩

/-- C7 as stated fails: a key of zoom 9, above the maximum zoom 5 of the
provider, is fetched over HTTP and yields a tile. -/
theorem load_out_of_range_zoom_fetches :
    (sampleProvider "http" true).getMaxZoom < (sampleKey 9).zoom ∧
      ((sampleSet "http" true none).load listStore (sampleWorld 200 "image/png")
        (sampleKey 9)).tile = some { pixels := { data := [1, 2, 3] } } ∧
      Event.tryLoadFromURI (sampleKey 9) ∈
        ((sampleSet "http" true none).load listStore (sampleWorld 200 "image/png")
          (sampleKey 9)).events ∧
      Event.httpExecute "http://tiles/9/1/2.png" ∈
        ((sampleSet "http" true none).load listStore (sampleWorld 200 "image/png")
          (sampleKey 9)).events := by
  decide

/-- C9, as the code has it: `_tryLoadFromURI` returns the response bytes if
and only if the URI scheme is `http` or `https`, the response status is
`HTTP_OK` (200) and the media type of the response matches `image`; in every
other case it returns no bytes; and for another scheme no HTTP request is
issued. -/
theorem tryLoadFromURI_accepts_iff (W : World) (self : MapTileSet σ) (key : TileKey) :
    ((self._tryLoadFromURI W key).1 =
          some (W.execute (W.parseURI (self._provider.getTileURI key)).text).body ↔
        (((W.parseURI (self._provider.getTileURI key)).scheme = "http" ∨
            (W.parseURI (self._provider.getTileURI key)).scheme = "https") ∧
          (W.execute (W.parseURI (self._provider.getTileURI key)).text).status = HTTP_OK ∧
          W.mediaTypeMatches
            (W.execute (W.parseURI (self._provider.getTileURI key)).text).contentType "image"
            = true)) ∧
      (¬ (((W.parseURI (self._provider.getTileURI key)).scheme = "http" ∨
            (W.parseURI (self._provider.getTileURI key)).scheme = "https") ∧
          (W.execute (W.parseURI (self._provider.getTileURI key)).text).status = HTTP_OK ∧
          W.mediaTypeMatches
            (W.execute (W.parseURI (self._provider.getTileURI key)).text).contentType "image"
            = true) →
        (self._tryLoadFromURI W key).1 = none) ∧
      (¬ ((W.parseURI (self._provider.getTileURI key)).scheme = "http" ∨
            (W.parseURI (self._provider.getTileURI key)).scheme = "https") →
        ∀ u, Event.httpExecute u ∉ (self._tryLoadFromURI W key).2) := by
  unfold MapTileSet._tryLoadFromURI
  simp only []
  by_cases hs : (W.parseURI (self._provider.getTileURI key)).scheme = "http" ∨
      (W.parseURI (self._provider.getTileURI key)).scheme = "https"
  · by_cases hst : (W.execute (W.parseURI (self._provider.getTileURI key)).text).status = HTTP_OK
    · by_cases hm : W.mediaTypeMatches
          (W.execute (W.parseURI (self._provider.getTileURI key)).text).contentType "image" = true
      · simp [hs, hst, hm]
      · simp [hs, hst, hm]
    · simp [hs, hst]
  · simp [hs]

/-- Instance of C9 as amended: a `ftp` URI yields no bytes and no HTTP
request. -/
theorem tryLoadFromURI_accepts_iff_witness :
    ((sampleSet "ftp" true none)._tryLoadFromURI (sampleWorld 200 "image/png") (sampleKey 3)).1
        = none ∧
      ∀ u, Event.httpExecute u ∉
        ((sampleSet "ftp" true none)._tryLoadFromURI (sampleWorld 200 "image/png")
          (sampleKey 3)).2 :=
  ⟨(tryLoadFromURI_accepts_iff (sampleWorld 200 "image/png") (sampleSet "ftp" true none)
      (sampleKey 3)).2.1 (by decide),
    (tryLoadFromURI_accepts_iff (sampleWorld 200 "image/png") (sampleSet "ftp" true none)
      (sampleKey 3)).2.2 (by decide)⟩

/-- C9 as stated fails: an `http` URI answered with the success status 204
and the content type `image/png` yields no bytes. -/
theorem tryLoadFromURI_rejects_204 :
    ((sampleWorld 204 "image/png").parseURI
        ((sampleSet "http" true none)._provider.getTileURI (sampleKey 3))).scheme = "http" ∧
      isSuccessStatus ((sampleWorld 204 "image/png").execute "http://tiles/3/1/2.png").status
        = true ∧
      (sampleWorld 204 "image/png").mediaTypeMatches
        ((sampleWorld 204 "image/png").execute "http://tiles/3/1/2.png").contentType "image"
        = true ∧
      ((sampleSet "http" true none)._tryLoadFromURI (sampleWorld 204 "image/png")
        (sampleKey 3)).1 = none := by
  decide

/-- C10: the write-through condition of `load`, for a `MapTileSet` built by
its constructor and having served any sequence of earlier loads.  An `add` to
the buffer cache happens if and only if the cache lookup missed, the fetch
returned bytes, those bytes decoded and the provider is cacheable; what is
written is the fetched bytes under the key of the request; at most one `add`
happens per `load`; after a miss, a fetch and a decode that succeed, `load`
returns the tile whatever `add` does; a cache hit writes nothing; and a decode
failure writes nothing and makes `load` return no tile. -/
theorem load_write_through (mk : MapTileProvider → String → σ) (C : TileBufferCache σ)
    (W : World) (provider : MapTileProvider) (bufferCache : Option σ)
    (reqs : List (World × TileKey)) (key : TileKey) (self : MapTileSet σ)
    (hs : self = ((MapTileSet.new mk provider bufferCache).loadAll C reqs).1) :
    (∀ k v, Event.cacheAdd k v ∈ (self.load C W key).events ↔
        (k = key ∧ (self._tryLoadFromCache C key).1 = none ∧
          (self._tryLoadFromURI W key).1 = some v ∧ (W.ofLoadImage v).isSome = true ∧
          provider.isCacheable = true)) ∧
      ((self.load C W key).events.filter Event.isCacheAdd).length ≤ 1 ∧
      (∀ v px, (self._tryLoadFromCache C key).1 = none →
        (self._tryLoadFromURI W key).1 = some v → W.ofLoadImage v = some px →
        (self.load C W key).tile = some { pixels := px }) ∧
      (∀ v, (self._tryLoadFromCache C key).1 = some v →
        ∀ e ∈ (self.load C W key).events, e.isCacheAdd = false) ∧
      (∀ v, ((self._tryLoadFromCache C key).1 = some v ∨
            ((self._tryLoadFromCache C key).1 = none ∧
              (self._tryLoadFromURI W key).1 = some v)) →
        W.ofLoadImage v = none →
        (self.load C W key).tile = none ∧
          ∀ e ∈ (self.load C W key).events, e.isCacheAdd = false) := by
  obtain ⟨hprov, hinv⟩ := reachable_invariant mk C provider bufferCache reqs
  rw [← hs] at hprov hinv
  have hna := events_no_add C W self key
  have hcases := load_cases C W self key
  refine ⟨?_, ?_, ?_, ?_, ?_⟩
  · intro k v
    rcases hcases with ⟨hA1, _, hA3⟩ | ⟨v0, px, hm, hf, hd, hb, hc, hev, _, _⟩
    · constructor
      · intro hmem
        have := hA1 _ hmem
        simp [Event.isCacheAdd] at this
      · rintro ⟨_, hm, hf, hd, hc⟩
        exact absurd ⟨hm, v, hf, hd, hinv hc, by rw [hprov]; exact hc⟩ hA3
    · rw [hev]
      constructor
      · intro hmem
        simp only [List.mem_append, List.mem_singleton] at hmem
        rcases hmem with hmem | hmem
        · have := hna _ (List.mem_append.2 hmem)
          simp [Event.isCacheAdd] at this
        · simp only [Event.cacheAdd.injEq] at hmem
          obtain ⟨rfl, rfl⟩ := hmem
          exact ⟨rfl, hm, hf, by rw [hd]; rfl, by rw [← hprov]; exact hc⟩
      · rintro ⟨rfl, _, hf2, _, _⟩
        rw [hf] at hf2
        cases hf2
        simp
  · rcases hcases with ⟨hA1, _, _⟩ | ⟨v0, px, _, _, _, _, _, hev, _, _⟩
    · rw [List.filter_eq_nil_iff.2 (fun e he => by simp [hA1 e he])]
      simp
    · rw [hev, List.filter_append, List.filter_eq_nil_iff.2 (fun e he => by simp [hna e he])]
      simp [Event.isCacheAdd]
  · intro v px hm hf hd
    rw [load_miss C W self key hm, hf]
    dsimp only
    rw [hd]
    dsimp only
    split <;> rfl
  · intro v hv
    exact fun e he => ((load_hit C W self key v hv).2.2 e he).1
  · intro v hv hd
    rcases hv with hv | ⟨hm, hf⟩
    · obtain ⟨_, h2, h3⟩ := load_hit C W self key v hv
      refine ⟨by rw [h2, hd]; rfl, fun e he => (h3 e he).1⟩
    · rcases hcases with ⟨hA1, _, _⟩ | ⟨v0, px, _, hf2, hd2, _⟩
      · refine ⟨?_, hA1⟩
        rw [load_miss C W self key hm, hf]
        dsimp only
        rw [hd]
      · rw [hf] at hf2
        cases hf2
        rw [hd] at hd2
        cases hd2

/-- Instance of C10: the sample tile set, cacheable, misses, fetches and
decodes; its events are the cache `get`, the fetch and one `add` of the
fetched bytes. -/
theorem load_write_through_witness :
    (Event.cacheAdd (sampleKey 3) [1, 2, 3] ∈
        ((sampleSet "http" true none).load listStore (sampleWorld 200 "image/png")
          (sampleKey 3)).events ↔
      (sampleKey 3 = sampleKey 3 ∧
        ((sampleSet "http" true none)._tryLoadFromCache listStore (sampleKey 3)).1 = none ∧
        ((sampleSet "http" true none)._tryLoadFromURI (sampleWorld 200 "image/png")
          (sampleKey 3)).1 = some [1, 2, 3] ∧
        ((sampleWorld 200 "image/png").ofLoadImage [1, 2, 3]).isSome = true ∧
        (sampleProvider "http" true).isCacheable = true)) ∧
    ((sampleSet "http" true none).load listStore (sampleWorld 200 "image/png")
        (sampleKey 3)).events =
      [Event.cacheGet (sampleKey 3), Event.tryLoadFromURI (sampleKey 3),
        Event.httpExecute "http://tiles/3/1/2.png", Event.cacheAdd (sampleKey 3) [1, 2, 3]] :=
  ⟨(load_write_through (fun _ _ => []) listStore (sampleWorld 200 "image/png")
      (sampleProvider "http" true) none [] (sampleKey 3) (sampleSet "http" true none) rfl).1
      (sampleKey 3) [1, 2, 3],
    by decide⟩

end MapTileSet

end Maps
end ofx
